import Mathlib

/-!
Verification of the enterprise-calculator engine (src/script.js).

Modelling conventions:
* JavaScript numbers are modelled as exact rationals.  `JSNum := Option ℚ`,
  where `none` stands for the non-finite values (NaN / Infinity).  This is
  faithful on the exact-decimal fragment exercised below; double-precision
  rounding and overflow-to-Infinity are outside the model.
* Rational arithmetic is implemented through `mkRat` (kernel-reducible) and
  related to the field operations of `ℚ` by bridge lemmas.
* `number.toString()` is modelled by the exact decimal expansion
  (`ratToString`); this agrees with JavaScript for every value whose shortest
  round-tripping representation is its exact decimal form (all values used in
  the concrete runs below).  Non-terminating expansions are truncated after
  17 fractional digits, the maximal precision JavaScript ever prints.
* `toLocaleString` is modelled with the en-US thousands grouping.
* `Date.now()` / `toISOString()` are modelled by a logical clock stored in the
  engine state and incremented whenever a history entry is created.
* The DOM view, toasts, logging and localStorage persistence are pure side
  channels: they never feed back into the engine state, so they are dropped.
-/

/-- A JavaScript number: `some q` for a finite value, `none` for NaN/Infinity. -/
abbrev JSNum := Option ℚ

/-- Embed an integer as a rational (kernel-reducible). -/
def intToRat (i : Int) : ℚ := mkRat i 1

/-- Kernel-reducible rational addition. -/
def qAdd (a b : ℚ) : ℚ := mkRat (a.num * b.den + b.num * a.den) (a.den * b.den)

/-- Kernel-reducible rational subtraction. -/
def qSub (a b : ℚ) : ℚ := mkRat (a.num * b.den - b.num * a.den) (a.den * b.den)

/-- Kernel-reducible rational multiplication. -/
def qMul (a b : ℚ) : ℚ := mkRat (a.num * b.num) (a.den * b.den)

/-- Kernel-reducible rational division (returns 0 when the divisor is 0; the
engine only calls it with a nonzero divisor). -/
def qDiv (a b : ℚ) : ℚ := mkRat (Int.sign b.num * (a.num * b.den)) (a.den * b.num.natAbs)

/-- Truncation toward zero, as JavaScript uses for the remainder operator. -/
def qTrunc (q : ℚ) : Int := q.num.tdiv q.den

/-- JavaScript remainder on finite values: `a - b * trunc(a / b)`. -/
def qMod (a b : ℚ) : ℚ := qSub a (qMul b (intToRat (qTrunc (qDiv a b))))

/-- Lift a binary rational operation to `JSNum`, propagating NaN. -/
def jBin (f : ℚ → ℚ → ℚ) : JSNum → JSNum → JSNum
  | some a, some b => some (f a b)
  | _, _ => none

/-- JavaScript `%` on `JSNum`: `x % 0` is NaN, NaN propagates. -/
def jMod : JSNum → JSNum → JSNum
  | some a, some b => if b = 0 then none else some (qMod a b)
  | _, _ => none

lemma qAdd_eq (a b : ℚ) : qAdd a b = a + b := by
  have ha : (a.den : ℚ) ≠ 0 := by exact_mod_cast a.den_nz
  have hb : (b.den : ℚ) ≠ 0 := by exact_mod_cast b.den_nz
  rw [qAdd, Rat.mkRat_eq_div]
  push_cast
  conv_rhs => rw [← Rat.num_div_den a, ← Rat.num_div_den b]
  field_simp

lemma qSub_eq (a b : ℚ) : qSub a b = a - b := by
  have ha : (a.den : ℚ) ≠ 0 := by exact_mod_cast a.den_nz
  have hb : (b.den : ℚ) ≠ 0 := by exact_mod_cast b.den_nz
  rw [qSub, Rat.mkRat_eq_div]
  push_cast
  conv_rhs => rw [← Rat.num_div_den a, ← Rat.num_div_den b]
  field_simp
  ring

lemma qMul_eq (a b : ℚ) : qMul a b = a * b := by
  have ha : (a.den : ℚ) ≠ 0 := by exact_mod_cast a.den_nz
  have hb : (b.den : ℚ) ≠ 0 := by exact_mod_cast b.den_nz
  rw [qMul, Rat.mkRat_eq_div]
  push_cast
  conv_rhs => rw [← Rat.num_div_den a, ← Rat.num_div_den b]
  rw [div_mul_div_comm]

lemma qDiv_eq (a b : ℚ) (hb : b ≠ 0) : qDiv a b = a / b := by
  have ha : (a.den : ℚ) ≠ 0 := by exact_mod_cast a.den_nz
  have hbn : b.num ≠ 0 := Rat.num_ne_zero.mpr hb
  have hbd : (b.den : ℚ) ≠ 0 := by exact_mod_cast b.den_nz
  have hbq : ((b.num : ℚ)) ≠ 0 := by exact_mod_cast hbn
  rw [qDiv, Rat.mkRat_eq_div]
  rcases lt_or_gt_of_ne hbn with h | h
  · have hq : (b.num : ℚ) < 0 := by exact_mod_cast h
    have hsign : b.num.sign = -1 := Int.sign_eq_neg_one_iff_neg.mpr h
    have hna : (b.num.natAbs : ℚ) = -(b.num : ℚ) := by
      rw [Int.cast_natAbs, abs_of_neg h]
      push_cast
      ring
    push_cast [hsign, hna]
    conv_rhs => rw [← Rat.num_div_den a, ← Rat.num_div_den b]
    field_simp
  · have hq : (0 : ℚ) < (b.num : ℚ) := by exact_mod_cast h
    have hsign : b.num.sign = 1 := Int.sign_eq_one_iff_pos.mpr h
    have hna : (b.num.natAbs : ℚ) = (b.num : ℚ) := by
      rw [Int.cast_natAbs, abs_of_pos h]
    push_cast [hsign, hna]
    conv_rhs => rw [← Rat.num_div_den a, ← Rat.num_div_den b]
    field_simp

lemma intToRat_eq (i : Int) : intToRat i = (i : ℚ) := by
  rw [intToRat, Rat.mkRat_eq_div]
  simp

/-- Fuel-based count of how often `p` divides `n` (structural, kernel-reducible). -/
def padicCountAux (p : Nat) : Nat → Nat → Nat
  | 0, _ => 0
  | fuel + 1, n => if 1 < p ∧ 0 < n ∧ n % p = 0 then padicCountAux p fuel (n / p) + 1 else 0

/-- Multiplicity of the prime `p` in `n`. -/
def padicCount (p n : Nat) : Nat := padicCountAux p n n

/-- Decimal digit string of `f`, left-padded with zeros to `k` digits. -/
def fracPad (k f : Nat) : String :=
  let s := toString f
  String.mk (List.replicate (k - s.length) '0') ++ s

/-- Model of JavaScript `number.toString()` on finite values: the exact decimal
expansion.  For a reduced fraction whose denominator is `2 ^ a * 5 ^ b` this is
the exact terminating expansion (and agrees with JavaScript whenever that
expansion is the shortest round-tripping form); other denominators are printed
truncated to 17 fractional digits, the most JavaScript ever prints. -/
def ratToString (q : ℚ) : String :=
  if q.num = 0 then "0"
  else
    let sign := if q.num < 0 then "-" else ""
    let n := q.num.natAbs
    let d := q.den
    if d = 1 then sign ++ toString n
    else
      let e2 := padicCount 2 d
      let e5 := padicCount 5 d
      if d = 2 ^ e2 * 5 ^ e5 then
        let k := max e2 e5
        let scaled := n * 10 ^ k / d
        sign ++ toString (scaled / 10 ^ k) ++ "." ++ fracPad k (scaled % 10 ^ k)
      else
        let scaled := n * 10 ^ 17 / d
        sign ++ toString (scaled / 10 ^ 17) ++ "." ++ fracPad 17 (scaled % 10 ^ 17)

/-- Insert a comma after every third character (input is reversed digits). -/
def groupAux : List Char → List Char
  | a :: b :: c :: d :: rest => a :: b :: c :: ',' :: groupAux (d :: rest)
  | l => l

/-- Group the digits of a decimal string in threes with commas (en-US). -/
def groupDigits (s : String) : String := String.mk ((groupAux s.data.reverse).reverse)

/-- Model of `number.toLocaleString()` as called by `formatNumber`: the code
only reaches it for values whose `toString` has no decimal point, i.e. whole
numbers, where the en-US result is the comma-grouped digit string.  (On other
values JavaScript would also round the fraction to three digits; that branch is
unreachable from `formatNumber`, and we fall back to `ratToString`.) -/
def toLocaleString (q : ℚ) : String :=
  if q.den = 1 then (if q.num < 0 then "-" else "") ++ groupDigits (toString q.num.natAbs)
  else ratToString q

/-- Fuel-based decimal digit count. -/
def digitsLenAux : Nat → Nat → Nat
  | 0, _ => 1
  | fuel + 1, n => if n < 10 then 1 else digitsLenAux fuel (n / 10) + 1

/-- Number of decimal digits of `n` (1 for 0). -/
def digitsLen (n : Nat) : Nat := digitsLenAux n n

/-- Does the fraction `num / den` satisfy `10 ^ e ≤ num / den`? -/
def geTenPow (num den : Nat) (e : Int) : Bool :=
  if 0 ≤ e then decide (den * 10 ^ e.toNat ≤ num) else decide (den ≤ num * 10 ^ (-e).toNat)

/-- Assemble an exponential-notation string `sign d.ddddd e(sign)k` from a
six-digit mantissa `m` and an exponent `e`. -/
def expString (sign : String) (m : Nat) (e : Int) : String :=
  sign ++ String.mk [Nat.digitChar (m / 100000 % 10)] ++ "." ++
    String.mk [Nat.digitChar (m / 10000 % 10), Nat.digitChar (m / 1000 % 10),
      Nat.digitChar (m / 100 % 10), Nat.digitChar (m / 10 % 10), Nat.digitChar (m % 10)] ++
    "e" ++ (if 0 ≤ e then "+" else "-") ++ toString e.natAbs

/-- Model of JavaScript `number.toExponential(5)`: mantissa rounded to six
significant digits (round half away from zero, as the ECMAScript algorithm
picks the larger candidate on ties), printed as `d.dddddE+e`. -/
def toExponential5 (q : ℚ) : String :=
  if q.num = 0 then expString "" 0 0
  else
    let sign := if q.num < 0 then "-" else ""
    let n := q.num.natAbs
    let d := q.den
    let e0 : Int := (digitsLen n : Int) - (digitsLen d : Int)
    let e1 : Int := if geTenPow n d e0 then e0 else e0 - 1
    let p : Int := 5 - e1
    let bigN := if 0 ≤ p then n * 10 ^ p.toNat else n
    let bigD := if 0 ≤ p then d else d * 10 ^ (-p).toNat
    let m0 := (2 * bigN + bigD) / (2 * bigD)
    let m := if m0 = 10 ^ 6 then 10 ^ 5 else m0
    let e := if m0 = 10 ^ 6 then e1 + 1 else e1
    expString sign m e

/-- Value of a list of decimal digit characters. -/
def digitsToNat (l : List Char) : Nat :=
  l.foldl (fun a c => a * 10 + (c.toNat - '0'.toNat)) 0

/-- Model of JavaScript `parseFloat` on the strings the engine produces: an
optional sign, a digit sequence with an optional fractional part, and an
optional exponent; the longest valid prefix is converted and anything after it
is ignored (so `parseFloat "25,000,000" = 25`).  `none` models NaN. -/
def parseFloat (s : String) : JSNum :=
  let l := s.data
  let sgn : Int := match l with | '-' :: _ => -1 | _ => 1
  let l := match l with | '-' :: r => r | '+' :: r => r | _ => l
  let ip := l.takeWhile Char.isDigit
  let l1 := l.dropWhile Char.isDigit
  let fp := match l1 with | '.' :: r => r.takeWhile Char.isDigit | _ => []
  let l2 := match l1 with | '.' :: r => r.dropWhile Char.isDigit | _ => l1
  if ip.isEmpty ∧ fp.isEmpty then none
  else
    let num0 := digitsToNat ip * 10 ^ fp.length + digitsToNat fp
    let den0 := 10 ^ fp.length
    let expv : Int :=
      match l2 with
      | 'e' :: r | 'E' :: r =>
        let es : Int := match r with | '-' :: _ => -1 | _ => 1
        let r1 := match r with | '-' :: r2 => r2 | '+' :: r2 => r2 | _ => r
        let ed := r1.takeWhile Char.isDigit
        if ed.isEmpty then 0 else es * (digitsToNat ed : Int)
      | _ => 0
    if 0 ≤ expv then some (mkRat (sgn * (num0 * 10 ^ expv.toNat : Nat)) den0)
    else some (mkRat (sgn * num0) (den0 * 10 ^ (-expv).toNat))

/-- String rendering of a `JSNum` (JavaScript template-literal coercion). -/
def jsNumToString : JSNum → String
  | some q => ratToString q
  | none => "NaN"

example : ratToString (mkRat 25000000 1) = "25000000" := by decide
example : ratToString (mkRat (-5) 2) = "-2.5" := by decide
example : ratToString (mkRat 1 100) = "0.01" := by decide
example : toLocaleString (mkRat 25000000 1) = "25,000,000" := by decide
example : toExponential5 (mkRat 1234567890123 1) = "1.23457e+12" := by decide
example : toExponential5 (mkRat (-1) 8000) = "-1.25000e-4" := by decide
example : parseFloat "25,000,000" = some (mkRat 25 1) := by decide
example : parseFloat "-2.5e2" = some (mkRat (-250) 1) := by decide
example : parseFloat "." = none := by decide
example : parseFloat "0." = some (mkRat 0 1) := by decide

instance {e a : Type} [DecidableEq e] [DecidableEq a] : DecidableEq (Except e a) := fun x y =>
  match x, y with
  | .ok v, .ok w => if h : v = w then isTrue (by rw [h]) else isFalse (by intro hc; cases hc; exact h rfl)
  | .error v, .error w => if h : v = w then isTrue (by rw [h]) else isFalse (by intro hc; cases hc; exact h rfl)
  | .ok _, .error _ => isFalse (by intro hc; cases hc)
  | .error _, .ok _ => isFalse (by intro hc; cases hc)

/-- Iterative factorial loop of the source: `result = 1; for i = 2..x: result *= i`. -/
def factIter (x : Nat) : Nat := (List.range' 2 (x - 1)).foldl (· * ·) 1

/-- The `factorial` entry of `CalculationStrategies.scientific.operations`
(script.js 72-82): rejects negative, non-integer or greater-than-170 inputs
(`Number.isInteger NaN = false`, so NaN is rejected too), returns 1 for 0 and
1, and the iterative product otherwise. -/
def factorialOp : JSNum → Except String JSNum
  | none => .error "Invalid factorial input"
  | some q =>
    if q < 0 ∨ q.den ≠ 1 ∨ 170 < q then .error "Invalid factorial input"
    else if q = 0 ∨ q = 1 then .ok (some (intToRat 1))
    else .ok (some (intToRat (factIter q.num.toNat)))

/-- The basic-strategy operation table (script.js 42-52).  `/` raises
`Division by zero` when the divisor is exactly 0; the other entries are total. -/
def basicOperation (op : String) : Option (JSNum → JSNum → Except String JSNum) :=
  match op with
  | "+" => some (fun a b => .ok (jBin qAdd a b))
  | "-" => some (fun a b => .ok (jBin qSub a b))
  | "*" => some (fun a b => .ok (jBin qMul a b))
  | "/" => some (fun a b => if b = some 0 then .error "Division by zero" else .ok (jBin qDiv a b))
  | "%" => some (fun a b => .ok (jMod a b))
  | _ => none

/-- The scientific-strategy unary operation table (script.js 54-84).  Only the
entries with exact rational semantics are modelled (`power` is squaring,
`factorial` as above); the transcendental entries (sin, cos, tan, log, ln,
sqrt) produce irrational doubles outside the exact-rational fragment and are
not needed by any verified claim. -/
def sciOperation : String → Option (JSNum → Except String JSNum)
  | "power" => some (fun x => .ok (jBin qMul x x))
  | "factorial" => some factorialOp
  | _ => none

/-- `CalculatorModel.scientificCalculate` (script.js 402-416): dispatches into
the scientific table, raising `Unknown function` for a missing entry. -/
def scientificCalculate (func : String) (x : JSNum) : Except String JSNum :=
  match sciOperation func with
  | some f => f x
  | none => .error ("Unknown function: " ++ func)

/-- `CalculatorModel.calculate` (script.js 384-400): dispatches `op` through
the current strategy table; a missing entry raises `Unknown operation` and an
unknown strategy name raises a TypeError, both caught by the controller. -/
def modelCalculate (strategy op : String) (a b : JSNum) : Except String JSNum :=
  match strategy with
  | "basic" =>
    match basicOperation op with
    | some f => f a b
    | none => .error ("Unknown operation: " ++ op)
  | "scientific" =>
    match sciOperation op with
    | some f => f a
    | none => .error ("Unknown operation: " ++ op)
  | _ => .error "Unknown strategy"

/-- `formatNumber` (script.js 289-305): rejects NaN/Infinity; strings longer
than 12 characters switch to exponential notation; whole values of magnitude
at least 1000 are comma-grouped; otherwise the plain decimal string.
`numStr.indexOf(Chr 46) === -1` is modelled as `contains` on the characters. -/
def formatNumber (x : JSNum) : Except String String :=
  match x with
  | none => .error "Invalid number"
  | some q =>
    let numStr := ratToString q
    if 12 < numStr.length then .ok (toExponential5 q)
    else if 1000 ≤ |q| ∧ numStr.data.contains '.' = false then .ok (toLocaleString q)
    else .ok numStr

/-- The controller-private `formatNumber` wrapper (script.js 745-752): catches
the `Invalid number` failure, shows an error and substitutes the string 0. -/
def ctrlFormat (x : JSNum) : String :=
  match formatNumber x with
  | .ok s => s
  | .error _ => "0"

/-- One calculation-log entry (script.js 307-313). -/
structure HistoryItem where
  id : Nat
  expression : String
  result : String
  timestamp : String
deriving Repr, DecidableEq

/-- The snapshot produced by `CalculatorModel.getState` (script.js 329-336). -/
structure CmdSnapshot where
  currentValue : String
  previousValue : String
  operator : Option String
  isWaitingForOperand : Bool
  history : String
  memoryValue : ℚ
deriving Repr, DecidableEq

/-- The complete mutable state of `CalculatorModel` plus its `CommandHistory`
(script.js 257-270): display state, memory, calculation log, strategy, the
undo command stack with its index, and the logical clock standing in for
`Date.now()`. -/
structure EngState where
  currentValue : String
  previousValue : String
  operator : Option String
  isWaitingForOperand : Bool
  history : String
  memoryValue : ℚ
  calculationHistory : List HistoryItem
  currentStrategy : String
  cmdCommands : List CmdSnapshot
  cmdIndex : Int
  clock : Nat
deriving Repr, DecidableEq

/-- The initial model state (script.js 259-267, no saved data). -/
def initState : EngState :=
  { currentValue := "0", previousValue := "", operator := none,
    isWaitingForOperand := false, history := "", memoryValue := 0,
    calculationHistory := [], currentStrategy := "basic",
    cmdCommands := [], cmdIndex := -1, clock := 0 }

/-- The pure list content of `addToHistory` (script.js 307-324): push the new
item in front, then truncate to the 100 most recent entries. -/
def pushHistory (item : HistoryItem) (l : List HistoryItem) : List HistoryItem :=
  let l1 := item :: l
  if 100 < l1.length then l1.take 100 else l1

/-- `addToHistory` on the engine state: builds the item with the clock as
`Date.now()` / timestamp and pushes it. -/
def addToHistoryS (expression result : String) (s : EngState) : EngState :=
  let item : HistoryItem :=
    { id := s.clock, expression := expression, result := result,
      timestamp := "T" ++ toString s.clock }
  { s with calculationHistory := pushHistory item s.calculationHistory, clock := s.clock + 1 }

/-- Controller `inputNumber` (script.js 754-777): while waiting for a fresh
operand the digit replaces the display; otherwise it is appended (replacing a
lone 0), and a result longer than 15 characters is rejected with only a toast,
leaving the state untouched. -/
def inputNumberS (num : String) (s : EngState) : EngState :=
  if s.isWaitingForOperand then
    { s with currentValue := num, isWaitingForOperand := false }
  else
    let newValue := if s.currentValue = "0" then num else s.currentValue ++ num
    if 15 < newValue.length then s else { s with currentValue := newValue }

/-- The common tail of `inputOperator` (script.js 800-806): set the waiting
flag, record the operator and refresh the display history label. -/
def finishOperator (nextOperator : String) (s1 : EngState) : EngState :=
  { s1 with isWaitingForOperand := true, operator := some nextOperator,
            history := s1.previousValue ++ " " ++ nextOperator }

/-- Controller `inputOperator` (script.js 779-807): parse the current operand
(abort on NaN); store it as the previous value if none is pending, otherwise
evaluate the pending operation unless a fresh operand is still awaited; then
record the new operator, set the waiting flag and the display history label
(`finishOperator`).  A calculation error aborts the whole handler, leaving
the state unchanged. -/
def inputOperatorS (nextOperator : String) (s : EngState) : EngState :=
  match parseFloat s.currentValue with
  | none => s
  | some current =>
    if s.previousValue = "" then
      finishOperator nextOperator { s with previousValue := jsNumToString (some current) }
    else
      match s.operator with
      | some op =>
        if s.isWaitingForOperand then finishOperator nextOperator s
        else
          match modelCalculate s.currentStrategy op (parseFloat s.previousValue) (some current) with
          | .error _ => s
          | .ok result =>
            finishOperator nextOperator
              { s with currentValue := ctrlFormat result,
                       previousValue := jsNumToString result }
      | none => finishOperator nextOperator s

/-- Controller `calculate` (script.js 809-837): with a pending operand and
operator and a parsable current operand, evaluate, log the expression with the
formatted result, write the result back and clear the pending state.  Any
calculation error is caught at this entry point with the state untouched. -/
def calculateS (s : EngState) : EngState :=
  match parseFloat s.currentValue with
  | none => s
  | some current =>
    if s.previousValue = "" then s
    else
      match s.operator with
      | none => s
      | some op =>
        match modelCalculate s.currentStrategy op (parseFloat s.previousValue) (some current) with
        | .error _ => s
        | .ok result =>
          let formatted := ctrlFormat result
          let expression := s.previousValue ++ " " ++ op ++ " " ++ jsNumToString (some current)
          let s1 := addToHistoryS expression formatted s
          { s1 with currentValue := formatted, previousValue := "", operator := none,
                    isWaitingForOperand := true, history := expression ++ " =" }

/-- Controller `inputDecimal` (script.js 969-981). -/
def inputDecimalS (s : EngState) : EngState :=
  if s.isWaitingForOperand then
    { s with currentValue := "0.", isWaitingForOperand := false }
  else if s.currentValue.data.contains '.' = false then
    { s with currentValue := s.currentValue ++ "." }
  else s

/-- Controller `deleteLast` (script.js 956-967): drop the last character, or
reset the display to 0 when one character (or the string 0) is left. -/
def deleteLastS (s : EngState) : EngState :=
  if 1 < s.currentValue.length ∧ s.currentValue ≠ "0" then
    { s with currentValue := String.mk (s.currentValue.data.take (s.currentValue.data.length - 1)) }
  else { s with currentValue := "0" }

/-- `CalculatorModel.reset` (script.js 474-491): restore the five display
fields to their defaults; memory, calculation log, strategy, command stack and
clock are untouched. -/
def resetS (s : EngState) : EngState :=
  { s with currentValue := "0", previousValue := "", operator := none,
           isWaitingForOperand := false, history := "" }

/-- Controller `performPercentage` (script.js 983-997). -/
def performPercentageS (s : EngState) : EngState :=
  match parseFloat s.currentValue with
  | none => s
  | some current =>
    let formatted := ctrlFormat (some (qDiv current (intToRat 100)))
    { s with currentValue := formatted, isWaitingForOperand := true }

/-- Decimal renderings of the doubles `Math.PI` and `Math.E`. -/
def jsPi : ℚ := mkRat 3141592653589793 (10 ^ 15)

/-- Decimal rendering of `Math.E`. -/
def jsE : ℚ := mkRat 2718281828459045 (10 ^ 15)

/-- Controller `performScientificFunction` (script.js 999-1031): constants
bypass the operand; otherwise the parsed operand goes through
`scientificCalculate` (an error aborts with the state unchanged).  The result
is formatted and written back, the waiting flag is set, and then the history
expression is built from `getCurrentValue()` — which at that point already
holds the formatted result, not the input operand. -/
def performScientificFunctionS (func : String) (s : EngState) : EngState :=
  let resultE : Except String JSNum :=
    if func = "pi" ∨ func = "e" then .ok (some (if func = "pi" then jsPi else jsE))
    else
      match parseFloat s.currentValue with
      | none => .error "Invalid input for function"
      | some current => scientificCalculate func (some current)
  match resultE with
  | .error _ => s
  | .ok result =>
    let formatted := ctrlFormat result
    let s1 := { s with currentValue := formatted, isWaitingForOperand := true }
    let expression := if func = "pi" ∨ func = "e" then func
                      else func ++ "(" ++ s1.currentValue ++ ")"
    addToHistoryS expression formatted s1

/-- `CalculatorModel.memoryStore` (script.js 419-424): `parseFloat(x) || 0`. -/
def memoryStoreS (value : String) (s : EngState) : EngState :=
  { s with memoryValue := (parseFloat value).getD 0 }

/-- `CalculatorModel.memoryRecall` (script.js 426-429): `memoryValue.toString()`. -/
def memoryRecallS (s : EngState) : String := ratToString s.memoryValue

/-- `CalculatorModel.memoryAdd` (script.js 431-436). -/
def memoryAddS (value : String) (s : EngState) : EngState :=
  { s with memoryValue := qAdd s.memoryValue ((parseFloat value).getD 0) }

/-- `CalculatorModel.memorySubtract` (script.js 438-443). -/
def memorySubtractS (value : String) (s : EngState) : EngState :=
  { s with memoryValue := qSub s.memoryValue ((parseFloat value).getD 0) }

/-- `CalculatorModel.memoryClear` (script.js 445-450). -/
def memoryClearS (s : EngState) : EngState := { s with memoryValue := 0 }

/-- `CommandHistory.undo` plus `CalculationCommand.undo` (script.js 137-146,
107-111): with a non-negative index, restore the snapshot recorded before the
indexed command via `setState` and report true; otherwise report false.  (The
missing-snapshot branch cannot occur: the index never exceeds the stack.) -/
def commandHistoryUndo (s : EngState) : EngState × Bool :=
  if 0 ≤ s.cmdIndex then
    match s.cmdCommands.get? s.cmdIndex.toNat with
    | some snap =>
      ({ s with currentValue := snap.currentValue, previousValue := snap.previousValue,
                operator := snap.operator, isWaitingForOperand := snap.isWaitingForOperand,
                history := snap.history, memoryValue := snap.memoryValue,
                cmdIndex := s.cmdIndex - 1 }, true)
    | none => ({ s with cmdIndex := s.cmdIndex - 1 }, true)
  else (s, false)

/-- The normalized input events the controller dispatches (keypad, keyboard,
scientific, memory and history handlers, script.js 838-1056). -/
inductive Event where
  | digit (d : String)
  | opKey (op : String)
  | equals
  | decimal
  | backspace
  | clear
  | percentage
  | sci (func : String)
  | memClear
  | memRecall
  | memAdd
  | memSubtract
  | undoKey
  | loadHistory (v : String)
  | modeToggle (m : String)
deriving Repr, DecidableEq

/-- One controller dispatch step. -/
def step (e : Event) (s : EngState) : EngState :=
  match e with
  | .digit d => inputNumberS d s
  | .opKey op => inputOperatorS op s
  | .equals => calculateS s
  | .decimal => inputDecimalS s
  | .backspace => deleteLastS s
  | .clear => resetS s
  | .percentage => performPercentageS s
  | .sci f => performScientificFunctionS f s
  | .memClear => memoryClearS s
  | .memRecall => { s with currentValue := memoryRecallS s, isWaitingForOperand := true }
  | .memAdd => memoryAddS s.currentValue s
  | .memSubtract => memorySubtractS s.currentValue s
  | .undoKey => (commandHistoryUndo s).1
  | .loadHistory v => { s with currentValue := v, isWaitingForOperand := true }
  | .modeToggle m =>
    { s with currentStrategy := if m = "scientific" then "scientific" else "basic" }

/-- Run a sequence of input events from the initial state. -/
def runEvents (evs : List Event) : EngState :=
  evs.foldl (fun s e => step e s) initState

/-- C10: reset mutates only the operand-entry fields — currentValue becomes
0, previousValue, operator, waiting flag and display history label are
cleared — while the memory value and the calculation history collection are
left unchanged, from any state. -/
theorem C10_reset_frame (s : EngState) :
    resetS s = { s with currentValue := "0", previousValue := "", operator := none,
                        isWaitingForOperand := false, history := "" } ∧
    (resetS s).memoryValue = s.memoryValue ∧
    (resetS s).calculationHistory = s.calculationHistory ∧
    (resetS s).cmdCommands = s.cmdCommands ∧
    (resetS s).currentStrategy = s.currentStrategy :=
  ⟨rfl, rfl, rfl, rfl, rfl⟩

/-- C8: a digit input whose append would push currentOperand beyond 15
characters is declined without an exception and the entire engine state is
unchanged; digit inputs that stay within 15 characters append normally. -/
theorem C8_input_length_limit (s : EngState) (d : String)
    (hw : s.isWaitingForOperand = false) :
    (15 < (if s.currentValue = "0" then d else s.currentValue ++ d).length →
        inputNumberS d s = s) ∧
    ((if s.currentValue = "0" then d else s.currentValue ++ d).length ≤ 15 →
        inputNumberS d s =
          { s with currentValue := if s.currentValue = "0" then d else s.currentValue ++ d }) := by
  constructor
  · intro h
    simp only [inputNumberS, hw, Bool.false_eq_true, if_false]
    rw [if_pos h]
  · intro h
    simp only [inputNumberS, hw, Bool.false_eq_true, if_false]
    rw [if_neg (Nat.not_lt.mpr h)]

/-- Concrete state exercising the 15-character limit. -/
def c8state : EngState := { initState with currentValue := "123456789012345" }

theorem C8_witness :
    inputNumberS "7" c8state = c8state ∧
    inputNumberS "5" initState = { initState with currentValue := "5" } :=
  ⟨(C8_input_length_limit c8state "7" rfl).1 (by decide),
   (C8_input_length_limit initState "5" rfl).2 (by decide)⟩

/-- C9: the memory operations are total functions of the state — store sets
the value to the parsed argument or 0 when it is not numeric, add and
subtract adjust by the parsed argument treating non-numeric input as 0,
clear resets to 0 and recall renders the current value as a string — and the
store 5, add 3, recall scenario returns the string 8. -/
theorem C9_memory_operations (s : EngState) (v : String) :
    (memoryStoreS v s).memoryValue = ((parseFloat v).getD 0 : ℚ) ∧
    (memoryAddS v s).memoryValue = s.memoryValue + (parseFloat v).getD 0 ∧
    (memorySubtractS v s).memoryValue = s.memoryValue - (parseFloat v).getD 0 ∧
    (memoryClearS s).memoryValue = 0 ∧
    memoryRecallS s = ratToString s.memoryValue ∧
    memoryRecallS (memoryAddS "3" (memoryStoreS "5" initState)) = "8" := by
  refine ⟨rfl, ?_, ?_, rfl, rfl, by decide⟩
  · simp [memoryAddS, qAdd_eq]
  · simp [memorySubtractS, qSub_eq]

lemma step_cmd_empty (e : Event) (s : EngState)
    (h1 : s.cmdCommands = []) (h2 : s.cmdIndex = -1) :
    (step e s).cmdCommands = [] ∧ (step e s).cmdIndex = -1 := by
  cases e <;>
    simp only [step, inputNumberS, inputOperatorS, calculateS, inputDecimalS, deleteLastS,
      resetS, performPercentageS, performScientificFunctionS, memoryClearS, memoryRecallS,
      memoryAddS, memorySubtractS, commandHistoryUndo, addToHistoryS, h2] <;>
    (repeat' split) <;>
    first
      | exact ⟨h1, h2⟩
      | exact ⟨rfl, rfl⟩
      | simp_all [finishOperator]

lemma runEvents_cmd_empty (evs : List Event) :
    (runEvents evs).cmdCommands = [] ∧ (runEvents evs).cmdIndex = -1 := by
  have main : ∀ (l : List Event) (s : EngState), s.cmdCommands = [] → s.cmdIndex = -1 →
      (l.foldl (fun t e => step e t) s).cmdCommands = [] ∧
      (l.foldl (fun t e => step e t) s).cmdIndex = -1 := by
    intro l
    induction l with
    | nil => intro s h1 h2; exact ⟨h1, h2⟩
    | cons e rest ih =>
      intro s h1 h2
      have h := step_cmd_empty e s h1 h2
      exact ih (step e s) h.1 h.2
  exact main evs initState rfl rfl

lemma undo_at_empty (s : EngState) (h2 : s.cmdIndex = -1) :
    commandHistoryUndo s = (s, false) := by
  simp [commandHistoryUndo, h2]

/-- C1: contrary to the specification, no engine operation records a command
on the undo stack (the code never invokes CommandHistory.execute), so after
any sequence of input events the stack is still empty: the very first undo()
already returns false and restores nothing, even though a mutating operation
(a digit press) has visibly changed the state. -/
theorem C1_undo_records_nothing :
    (∀ evs : List Event,
        (commandHistoryUndo (runEvents evs)).2 = false ∧
        (commandHistoryUndo (runEvents evs)).1 = runEvents evs) ∧
    (runEvents [.digit "5"]).currentValue = "5" ∧
    initState.currentValue = "0" := by
  refine ⟨fun evs => ?_, by decide, rfl⟩
  have h := runEvents_cmd_empty evs
  rw [undo_at_empty (runEvents evs) h.2]
  exact ⟨rfl, rfl⟩

lemma div_always_error (strategy : String) (x : JSNum) :
    ∃ msg, modelCalculate strategy "/" x (some 0) = .error msg := by
  unfold modelCalculate
  split
  · exact ⟨"Division by zero", by simp [basicOperation]⟩
  · exact ⟨"Unknown operation: " ++ "/", by simp [sciOperation]⟩
  · exact ⟨"Unknown strategy", rfl⟩

/-- C2: the division entry of the basic strategy fails with Division by zero
for every dividend when the divisor is exactly 0, and the failed evaluation
is caught at the engine entry point (controller calculate), leaving the whole
engine state — including the calculation history — unmodified. -/
theorem C2_division_by_zero (a : JSNum) (s : EngState)
    (hop : s.operator = some "/") (hcur : parseFloat s.currentValue = some 0) :
    modelCalculate "basic" "/" a (some 0) = .error "Division by zero" ∧
    calculateS s = s := by
  constructor
  · simp [modelCalculate, basicOperation]
  · unfold calculateS
    rw [hcur]
    dsimp only
    by_cases hp : s.previousValue = ""
    · simp [hp]
    · rw [if_neg hp, hop]
      dsimp only
      obtain ⟨msg, hmsg⟩ := div_always_error s.currentStrategy (parseFloat s.previousValue)
      rw [hmsg]

theorem C2_witness :
    calculateS (runEvents [.digit "7", .opKey "/", .digit "0"]) =
      runEvents [.digit "7", .opKey "/", .digit "0"] :=
  (C2_division_by_zero (some 7) (runEvents [.digit "7", .opKey "/", .digit "0"])
    (by decide) (by decide)).2

/-- The state after entering the operand 3, and the effect of the power key
on it. -/
def c6before : EngState := runEvents [.digit "3"]

/-- The state after pressing the squaring key on operand 3. -/
def c6after : EngState := performScientificFunctionS "power" c6before

/-- C6: scientific function application does read the operand, apply the
unary operation, write the formatted result back and set the waiting flag —
but the history expression is built after currentOperand has already been
overwritten with the result, so squaring the operand 3 logs the expression
power(9), not power(3) as the specification requires. -/
theorem C6_scientific_expression_uses_result :
    c6before.currentValue = "3" ∧
    c6after.currentValue = "9" ∧
    c6after.isWaitingForOperand = true ∧
    c6after.calculationHistory.map (fun h => (h.expression, h.result)) = [("power(9)", "9")] ∧
    (c6after.calculationHistory.map (fun h => h.expression)) ≠
      ["power(" ++ c6before.currentValue ++ ")"] := by
  refine ⟨by decide, by decide, by decide, by decide, by decide⟩

lemma take_append_take {α : Type} (xs ys : List α) (n : Nat) :
    (xs ++ ys.take n).take n = (xs ++ ys).take n := by
  rw [List.take_append_eq_append_take, List.take_append_eq_append_take, List.take_take,
    Nat.min_eq_left (Nat.sub_le _ _)]

lemma pushHistory_eq_take (it : HistoryItem) (l : List HistoryItem) (h : l.length ≤ 100) :
    pushHistory it l = (it :: l).take 100 := by
  unfold pushHistory
  by_cases hl : 100 < (it :: l).length
  · simp [hl]
  · rw [if_neg hl, List.take_of_length_le (Nat.le_of_not_lt hl)]

/-- Folding the calculation-log append over a list of entries. -/
def foldAppend (items : List HistoryItem) : List HistoryItem :=
  items.foldl (fun acc it => pushHistory it acc) []

lemma foldAppend_general (items acc : List HistoryItem) (h : acc.length ≤ 100) :
    items.foldl (fun l it => pushHistory it l) acc = (items.reverse ++ acc).take 100 := by
  induction items generalizing acc with
  | nil => simp [List.take_of_length_le h]
  | cons it rest ih =>
    simp only [List.foldl_cons, List.reverse_cons, List.append_assoc, List.singleton_append]
    rw [ih (pushHistory it acc) (by rw [pushHistory_eq_take it acc h]; exact List.length_take_le _ _),
      pushHistory_eq_take it acc h, take_append_take]

/-- C5: the calculation log append inserts at the front (with a timestamp
field) and keeps at most the 100 most recent entries, newest first: folding
any sequence of appends from the empty log yields the reversed input
truncated to 100 entries, so length is capped at 100 and appending a 101st
entry leaves exactly the 100 most recent with the oldest evicted. -/
theorem C5_history_capacity (items : List HistoryItem) (it : HistoryItem)
    (l : List HistoryItem) (expression result : String) (s : EngState) :
    foldAppend items = items.reverse.take 100 ∧
    (foldAppend items).length = min 100 items.length ∧
    (pushHistory it l).head? = some it ∧
    (items.length = 101 → (foldAppend items).length = 100) ∧
    (addToHistoryS expression result s).calculationHistory =
      pushHistory { id := s.clock, expression := expression, result := result,
                    timestamp := "T" ++ toString s.clock } s.calculationHistory := by
  have hmain : foldAppend items = items.reverse.take 100 := by
    have := foldAppend_general items [] (by simp)
    simpa [foldAppend] using this
  refine ⟨hmain, ?_, ?_, ?_, rfl⟩
  · rw [hmain, List.length_take, List.length_reverse]
  · unfold pushHistory
    by_cases hl : 100 < (it :: l).length
    · rw [if_pos hl]
      show ((it :: l).take (99 + 1)).head? = some it
      rw [List.take_succ_cons]
      rfl
    · rw [if_neg hl]
      rfl
  · intro h101
    rw [hmain, List.length_take, List.length_reverse, h101]
    norm_num

/-- A sample log entry for the capacity witness. -/
def c5item : HistoryItem := ⟨0, "x", "y", "T0"⟩

theorem C5_witness : (foldAppend (List.replicate 101 c5item)).length = 100 :=
  (C5_history_capacity (List.replicate 101 c5item) c5item [] "" "" initState).2.2.2.1 (by simp)

lemma range2_foldl (m : Nat) : (List.range' 2 m).foldl (· * ·) 1 = (m + 1).factorial := by
  induction m with
  | zero => simp [Nat.factorial]
  | succ k ih =>
    rw [List.range'_concat, List.foldl_append, ih]
    simp only [List.foldl_cons, List.foldl_nil, Nat.factorial_succ]
    ring

lemma factIter_eq_factorial (n : Nat) (h : 1 ≤ n) : factIter n = n.factorial := by
  unfold factIter
  rw [range2_foldl (n - 1)]
  congr 1
  omega

set_option maxRecDepth 8000 in
/-- C4: factorial fails exactly when the input is negative, non-integer or
greater than 170; on a natural number up to 170 it returns the iterative
product, equal to the mathematical factorial; factorial 170 succeeds and its
value is finite in double precision (below 2 ^ 1024), while 171, -1 and 2.5
are all rejected. -/
theorem C4_factorial_domain :
    (∀ q : ℚ, (∃ r, factorialOp (some q) = .ok r) ↔ (0 ≤ q ∧ q.den = 1 ∧ q ≤ 170)) ∧
    (∀ n : Nat, n ≤ 170 → factorialOp (some (n : ℚ)) = .ok (some ((n.factorial : Nat) : ℚ))) ∧
    factorialOp (some 170) = .ok (some (intToRat (factIter 170))) ∧
    factIter 170 < 2 ^ 1024 ∧
    factorialOp (some 171) = .error "Invalid factorial input" ∧
    factorialOp (some (-1)) = .error "Invalid factorial input" ∧
    factorialOp (some (mkRat 5 2)) = .error "Invalid factorial input" := by
  refine ⟨?_, ?_, by decide, by decide, by decide, by decide, by decide⟩
  · intro q
    by_cases hc : q < 0 ∨ q.den ≠ 1 ∨ 170 < q
    · constructor
      · intro hr
        rcases hr with ⟨r, hr⟩
        simp only [factorialOp] at hr
        rw [if_pos hc] at hr
        cases hr
      · intro hx
        rcases hc with h | h | h
        · exact absurd hx.1 (not_le.mpr h)
        · exact absurd hx.2.1 h
        · exact absurd hx.2.2 (not_le.mpr h)
    · have hc2 := hc
      push_neg at hc2
      constructor
      · intro _
        exact hc2
      · intro _
        simp only [factorialOp]
        rw [if_neg hc]
        by_cases h01 : q = 0 ∨ q = 1
        · rw [if_pos h01]; exact ⟨_, rfl⟩
        · rw [if_neg h01]; exact ⟨_, rfl⟩
  · intro n hn
    have hden : ((n : ℚ)).den = 1 := Rat.den_natCast n
    have hnum : ((n : ℚ)).num = (n : ℤ) := Rat.num_natCast n
    have hnotneg : ¬((n : ℚ) < 0 ∨ ((n : ℚ)).den ≠ 1 ∨ 170 < (n : ℚ)) := by
      push_neg
      refine ⟨Nat.cast_nonneg n, hden, ?_⟩
      exact_mod_cast hn
    match n with
    | 0 =>
      simp only [factorialOp]
      rw [if_neg hnotneg, if_pos (Or.inl (by norm_num))]
      norm_num [intToRat_eq, Nat.factorial]
    | 1 =>
      simp only [factorialOp]
      rw [if_neg hnotneg, if_pos (Or.inr (by norm_num))]
      norm_num [intToRat_eq, Nat.factorial]
    | (m + 2) =>
      have h01 : ¬(((m + 2 : Nat) : ℚ) = 0 ∨ ((m + 2 : Nat) : ℚ) = 1) := by
        push_neg
        constructor
        · exact_mod_cast Nat.succ_ne_zero (m + 1)
        · intro hx
          have : (m + 2 : Nat) = 1 := by exact_mod_cast hx
          omega
      simp only [factorialOp]
      rw [if_neg hnotneg, if_neg h01, intToRat_eq]
      congr 1
      rw [hnum]
      rw [Int.toNat_natCast]
      rw [factIter_eq_factorial (m + 2) (by omega)]
      norm_cast

theorem C4_witness :
    factorialOp (some ((5 : Nat) : ℚ)) = .ok (some (((5 : Nat).factorial : Nat) : ℚ)) :=
  C4_factorial_domain.2.1 5 (by norm_num)

lemma data_append (s t : String) : (s ++ t).data = s.data ++ t.data := rfl

/-- Number of characters strictly between the first decimal point and the
following exponent marker: the count of fractional digits of an
exponential-notation string. -/
def fracLen (s : String) : Nat :=
  (((s.data.dropWhile (fun c => c != '.')).drop 1).takeWhile (fun c => c != 'e')).length

lemma dropWhile_append_of_all {p : Char → Bool} (l1 l2 : List Char)
    (h : ∀ c ∈ l1, p c = true) :
    (l1 ++ l2).dropWhile p = l2.dropWhile p := by
  induction l1 with
  | nil => rfl
  | cons a t ih =>
    rw [List.cons_append, List.dropWhile_cons, if_pos (h a (List.mem_cons_self a t))]
    exact ih (fun c hc => h c (List.mem_cons_of_mem a hc))

lemma takeWhile_append_of_all {p : Char → Bool} (l1 l2 : List Char)
    (h : ∀ c ∈ l1, p c = true) :
    (l1 ++ l2).takeWhile p = l1 ++ l2.takeWhile p := by
  induction l1 with
  | nil => rfl
  | cons a t ih =>
    rw [List.cons_append, List.takeWhile_cons, if_pos (h a (List.mem_cons_self a t))]
    rw [ih (fun c hc => h c (List.mem_cons_of_mem a hc)), List.cons_append]

lemma fracLen_shape (pre mid post : List Char)
    (hpre : ∀ c ∈ pre, (c != '.') = true) (hmid : ∀ c ∈ mid, (c != 'e') = true) :
    ((((pre ++ '.' :: (mid ++ 'e' :: post)).dropWhile (fun c => c != '.')).drop 1).takeWhile
      (fun c => c != 'e')).length = mid.length := by
  rw [dropWhile_append_of_all pre _ hpre, List.dropWhile_cons]
  rw [if_neg (by simp)]
  simp only [List.drop_succ_cons, List.drop_zero]
  rw [takeWhile_append_of_all mid _ hmid, List.takeWhile_cons]
  rw [if_neg (by simp)]
  simp

lemma digitChar_lt10 :
    ∀ y : Nat, y < 10 → (Nat.digitChar y != '.') = true ∧ (Nat.digitChar y != 'e') = true ∧
      (Nat.digitChar y != '-') = true ∧ (Nat.digitChar y).isDigit = true := by
  decide

lemma mod10_lt (x : Nat) : x % 10 < 10 := Nat.mod_lt _ (by norm_num)

lemma fracLen_expString (sign : String) (m : Nat) (e : Int)
    (hs : ∀ c ∈ sign.data, (c != '.') = true) :
    fracLen (expString sign m e) = 5 := by
  have hd : (expString sign m e).data =
      (sign.data ++ [Nat.digitChar (m / 100000 % 10)]) ++
        '.' :: ([Nat.digitChar (m / 10000 % 10), Nat.digitChar (m / 1000 % 10),
                 Nat.digitChar (m / 100 % 10), Nat.digitChar (m / 10 % 10),
                 Nat.digitChar (m % 10)] ++
          'e' :: ((if (0 : Int) ≤ e then "+" else "-").data ++ (toString e.natAbs).data)) := by
    simp only [expString, data_append]
    simp [List.append_assoc]
  unfold fracLen
  rw [hd, fracLen_shape]
  · rfl
  · intro c hc
    rcases List.mem_append.mp hc with h1 | h1
    · exact hs c h1
    · simp only [List.mem_singleton] at h1
      subst h1
      exact (digitChar_lt10 _ (mod10_lt _)).1
  · intro c hc
    simp only [List.mem_cons, List.not_mem_nil, or_false] at hc
    rcases hc with h1 | h1 | h1 | h1 | h1 <;> subst h1 <;>
      exact (digitChar_lt10 _ (mod10_lt _)).2.1

lemma fracLen_toExponential5 (q : ℚ) : fracLen (toExponential5 q) = 5 := by
  unfold toExponential5
  by_cases hq : q.num = 0
  · rw [if_pos hq]
    exact fracLen_expString "" 0 0 (by intro c hc; simp at hc)
  · rw [if_neg hq]
    apply fracLen_expString
    by_cases hneg : q.num < 0 <;> simp [hneg] <;> decide

/-- C3: the number formatter fails with Invalid number exactly when its input
is non-finite (NaN or Infinity); exponential output always carries exactly 5
fractional digits (within the specified 5 to 6); when the default string form
exceeds 12 characters the result is the exponential notation — taking
precedence over the grouping rule even for whole values of magnitude at least
1000 — otherwise such whole values are comma-grouped, and everything else is
the plain decimal string. -/
theorem C3_formatter_behavior (x : JSNum) :
    ((∃ r, formatNumber x = .ok r) ↔ x ≠ none) ∧
    (∀ q : ℚ, fracLen (toExponential5 q) = 5) ∧
    (∀ q : ℚ, x = some q →
      (12 < (ratToString q).length → formatNumber x = .ok (toExponential5 q)) ∧
      ((ratToString q).length ≤ 12 → 1000 ≤ |q| → (ratToString q).data.contains '.' = false →
          formatNumber x = .ok (toLocaleString q)) ∧
      ((ratToString q).length ≤ 12 → ¬(1000 ≤ |q| ∧ (ratToString q).data.contains '.' = false) →
          formatNumber x = .ok (ratToString q))) := by
  refine ⟨?_, fracLen_toExponential5, ?_⟩
  · cases x with
    | none =>
      constructor
      · intro hr
        rcases hr with ⟨r, hr⟩
        cases hr
      · intro hx
        exact absurd rfl hx
    | some q =>
      constructor
      · intro _
        exact Option.some_ne_none q
      · intro _
        unfold formatNumber
        dsimp only
        by_cases h12 : 12 < (ratToString q).length
        · rw [if_pos h12]; exact ⟨_, rfl⟩
        · rw [if_neg h12]
          by_cases hg : 1000 ≤ |q| ∧ (ratToString q).data.contains '.' = false
          · rw [if_pos hg]; exact ⟨_, rfl⟩
          · rw [if_neg hg]; exact ⟨_, rfl⟩
  · intro q hx
    subst hx
    refine ⟨?_, ?_, ?_⟩
    · intro h12
      unfold formatNumber
      dsimp only
      rw [if_pos h12]
    · intro h12 habs hdot
      unfold formatNumber
      dsimp only
      rw [if_neg (Nat.not_lt.mpr h12), if_pos ⟨habs, hdot⟩]
    · intro h12 hng
      unfold formatNumber
      dsimp only
      rw [if_neg (Nat.not_lt.mpr h12), if_neg hng]

theorem C3_witness :
    formatNumber (some (mkRat 1234567890123 1)) = .ok (toExponential5 (mkRat 1234567890123 1)) ∧
    toExponential5 (mkRat 1234567890123 1) = "1.23457e+12" ∧
    fracLen (toExponential5 (mkRat 1234567890123 1)) = 5 ∧
    formatNumber (some (mkRat 25000000 1)) = .ok (toLocaleString (mkRat 25000000 1)) ∧
    toLocaleString (mkRat 25000000 1) = "25,000,000" :=
  ⟨((C3_formatter_behavior (some (mkRat 1234567890123 1))).2.2 _ rfl).1 (by decide),
   by decide,
   (C3_formatter_behavior none).2.1 (mkRat 1234567890123 1),
   ((C3_formatter_behavior (some (mkRat 25000000 1))).2.2 _ rfl).2.1 (by decide) (by decide)
     (by decide),
   by decide⟩

/-- Canonical textual operand form over a character list: an optional leading
minus, an integer part with no leading zeros (except the single digit 0),
and at most one decimal point followed only by digits. -/
def canonList (l : List Char) : Bool :=
  let cs := if l.head? = some '-' then l.tail else l
  let ip := cs.takeWhile Char.isDigit
  let rest := cs.dropWhile Char.isDigit
  (!ip.isEmpty) && ((ip.head? != some '0') || (ip == ['0'])) &&
    (rest.isEmpty || ((rest.head? == some '.') && (rest.drop 1).all Char.isDigit))

/-- Canonical textual operand form of the specification, as a decidable
predicate on strings. -/
def canonicalOperand (s : String) : Bool := canonList s.data

/-- The event sequence 5000 * 5000 =, whose result is formatted with
thousands separators. -/
def c7events : List Event :=
  [.digit "5", .digit "0", .digit "0", .digit "0", .opKey "*",
   .digit "5", .digit "0", .digit "0", .digit "0", .equals]

/-- C7 fails on the code: the reachable state after computing 5000 * 5000
holds the comma-grouped string 25,000,000 in currentOperand, which is not in
canonical textual form (commas are neither digits, a decimal point nor a
sign), so the canonical-form invariant does not hold after operations that
write formatted results back. -/
theorem C7_counterexample :
    (runEvents c7events).currentValue = "25,000,000" ∧
    canonicalOperand ((runEvents c7events).currentValue) = false := by
  constructor <;> decide

lemma all_takeWhile (p : Char → Bool) (l : List Char) :
    ∀ x ∈ l.takeWhile p, p x = true := by
  induction l with
  | nil => intro x hx; cases hx
  | cons a t ih =>
    intro x hx
    rw [List.takeWhile_cons] at hx
    by_cases hp : p a = true
    · rw [if_pos hp] at hx
      rcases List.mem_cons.mp hx with h | h
      · rwa [h]
      · exact ih x h
    · rw [if_neg hp] at hx
      cases hx

lemma dropWhile_head_false (p : Char → Bool) (l : List Char) (d : Char) (r : List Char)
    (h : l.dropWhile p = d :: r) : p d = false := by
  induction l with
  | nil => cases h
  | cons a t ih =>
    rw [List.dropWhile_cons] at h
    by_cases hp : p a = true
    · rw [if_pos hp] at h
      exact ih h
    · rw [if_neg hp] at h
      cases h
      exact Bool.eq_false_iff.mpr hp

lemma canonList_of_no_minus (l : List Char) (h2 : '-' ∉ l) :
    canonList l =
      ((!((l.takeWhile Char.isDigit).isEmpty)) &&
        (((l.takeWhile Char.isDigit).head? != some '0') ||
          (l.takeWhile Char.isDigit == ['0'])) &&
        ((l.dropWhile Char.isDigit).isEmpty ||
          (((l.dropWhile Char.isDigit).head? == some '.') &&
            ((l.dropWhile Char.isDigit).drop 1).all Char.isDigit))) := by
  have hne : l.head? ≠ some '-' :=
    fun h => h2 (List.mem_of_mem_head? (Option.mem_def.mpr h))
  unfold canonList
  dsimp only
  rw [if_neg hne]

lemma takeWhile_of_dropWhile_nil {p : Char → Bool} {l : List Char}
    (h : l.dropWhile p = []) : l.takeWhile p = l := by
  have := List.takeWhile_append_dropWhile (p := p) (l := l)
  rw [h] at this
  simpa using this

lemma canonList_parts {l : List Char} (h2 : '-' ∉ l) (h1 : canonList l = true) :
    l.takeWhile Char.isDigit ≠ [] ∧
    ((l.takeWhile Char.isDigit).head? ≠ some '0' ∨ l.takeWhile Char.isDigit = ['0']) ∧
    (l.dropWhile Char.isDigit = [] ∨
      ((l.dropWhile Char.isDigit).head? = some '.' ∧
        ((l.dropWhile Char.isDigit).drop 1).all Char.isDigit = true)) := by
  rw [canonList_of_no_minus _ h2] at h1
  simp only [Bool.and_eq_true, Bool.or_eq_true, Bool.not_eq_true', beq_iff_eq, bne_iff_ne,
    List.isEmpty_iff, List.isEmpty_eq_false] at h1
  tauto

lemma canonList_build {l : List Char} (h2 : '-' ∉ l)
    (hip : l.takeWhile Char.isDigit ≠ [])
    (hlead : (l.takeWhile Char.isDigit).head? ≠ some '0' ∨ l.takeWhile Char.isDigit = ['0'])
    (hrest : l.dropWhile Char.isDigit = [] ∨
      ((l.dropWhile Char.isDigit).head? = some '.' ∧
        ((l.dropWhile Char.isDigit).drop 1).all Char.isDigit = true)) :
    canonList l = true := by
  rw [canonList_of_no_minus _ h2]
  simp only [Bool.and_eq_true, Bool.or_eq_true, Bool.not_eq_true', beq_iff_eq, bne_iff_ne,
    List.isEmpty_iff, List.isEmpty_eq_false]
  tauto


lemma canonList_append_digit (l : List Char) (c : Char) (hc : c.isDigit = true)
    (h1 : canonList l = true) (h2 : '-' ∉ l) (h0 : l ≠ ['0']) :
    canonList (l ++ [c]) = true ∧ '-' ∉ l ++ [c] := by
  have hcm : c ≠ '-' := by
    intro h
    rw [h] at hc
    exact absurd hc (by decide)
  have h2b : '-' ∉ l ++ [c] := by
    intro hmem
    rcases List.mem_append.mp hmem with hm | hm
    · exact h2 hm
    · exact hcm (List.mem_singleton.mp hm).symm
  obtain ⟨hip, hlead, hrest⟩ := canonList_parts h2 h1
  refine ⟨?_, h2b⟩
  rcases hrest with hr | hr
  · -- the operand has no decimal point: every character is a digit
    have hall : ∀ x ∈ l, Char.isDigit x = true := List.dropWhile_eq_nil_iff.mp hr
    have hipl : l.takeWhile Char.isDigit = l := takeWhile_of_dropWhile_nil hr
    have htake : (l ++ [c]).takeWhile Char.isDigit = l ++ [c] := by
      rw [takeWhile_append_of_all _ _ hall, List.takeWhile_cons, if_pos hc]
      rfl
    have hdrop : (l ++ [c]).dropWhile Char.isDigit = [] := by
      rw [dropWhile_append_of_all _ _ hall, List.dropWhile_cons, if_pos hc]
      rfl
    have hl0 : l.head? ≠ some '0' := by
      rcases hlead with h | h
      · rwa [hipl] at h
      · rw [hipl] at h
        exact absurd h h0
    apply canonList_build h2b
    · rw [htake]
      simp
    · left
      rw [htake]
      rcases l with _ | ⟨a, t⟩
      · rw [hipl] at hip
        exact absurd rfl hip
      · simpa using hl0
    · exact Or.inl hdrop
  · -- the operand already has a decimal point: the append lands in the fraction
    rcases hrm : l.dropWhile Char.isDigit with _ | ⟨d, fr⟩
    · rw [hrm] at hr
      exact absurd hr.1 (by simp)
    · have hd : d = '.' := by
        rw [hrm] at hr
        simpa using hr.1
      subst hd
      have hfr : fr.all Char.isDigit = true := by
        have := hr.2
        rw [hrm] at this
        simpa using this
      have htake : (l ++ [c]).takeWhile Char.isDigit = l.takeWhile Char.isDigit := by
        conv_lhs => rw [← List.takeWhile_append_dropWhile (p := Char.isDigit) (l := l)]
        rw [List.append_assoc, takeWhile_append_of_all _ _ (all_takeWhile _ _), hrm,
          List.cons_append, List.takeWhile_cons, if_neg (by decide)]
        simp
      have hdrop : (l ++ [c]).dropWhile Char.isDigit = '.' :: (fr ++ [c]) := by
        conv_lhs => rw [← List.takeWhile_append_dropWhile (p := Char.isDigit) (l := l)]
        rw [List.append_assoc, dropWhile_append_of_all _ _ (all_takeWhile _ _), hrm,
          List.cons_append, List.dropWhile_cons, if_neg (by decide)]
      apply canonList_build h2b
      · rwa [htake]
      · rw [htake]
        exact hlead
      · right
        rw [hdrop]
        refine ⟨rfl, ?_⟩
        simp only [List.drop_succ_cons, List.drop_zero, List.all_append, Bool.and_eq_true]
        refine ⟨hfr, by simpa using hc⟩

lemma canonList_append_dot (l : List Char) (h1 : canonList l = true) (h2 : '-' ∉ l)
    (hnd : '.' ∉ l) :
    canonList (l ++ ['.']) = true ∧ '-' ∉ l ++ ['.'] := by
  have h2b : '-' ∉ l ++ ['.'] := by
    intro hmem
    rcases List.mem_append.mp hmem with hm | hm
    · exact h2 hm
    · exact absurd (List.mem_singleton.mp hm) (by decide)
  obtain ⟨hip, hlead, hrest⟩ := canonList_parts h2 h1
  refine ⟨?_, h2b⟩
  have hr : l.dropWhile Char.isDigit = [] := by
    rcases hrest with hr | hr
    · exact hr
    · exfalso
      rcases hrm : l.dropWhile Char.isDigit with _ | ⟨d, fr⟩
      · rw [hrm] at hr
        exact absurd hr.1 (by simp)
      · have hd : d = '.' := by
          rw [hrm] at hr
          simpa using hr.1
        subst hd
        apply hnd
        exact (List.dropWhile_sublist (p := Char.isDigit)).subset
          (by rw [hrm]; exact List.mem_cons_self _ _)
  have hall : ∀ x ∈ l, Char.isDigit x = true := List.dropWhile_eq_nil_iff.mp hr
  have hipl : l.takeWhile Char.isDigit = l := takeWhile_of_dropWhile_nil hr
  have htake : (l ++ ['.']).takeWhile Char.isDigit = l := by
    rw [takeWhile_append_of_all _ _ hall, List.takeWhile_cons, if_neg (by decide)]
    simp
  have hdrop : (l ++ ['.']).dropWhile Char.isDigit = ['.'] := by
    rw [dropWhile_append_of_all _ _ hall, List.dropWhile_cons, if_neg (by decide)]
  apply canonList_build h2b
  · rw [htake]
    rwa [hipl] at hip
  · rw [htake]
    rwa [hipl] at hlead
  · right
    rw [hdrop]
    exact ⟨rfl, by simp⟩

lemma string_data_inj {s t : String} (h : s.data = t.data) : s = t := by
  cases s
  cases t
  exact congrArg String.mk h

/-- The operand-entry input events: digit keys, the decimal point and
clear. -/
def entryEvent : Event → Bool
  | .digit d => ["0", "1", "2", "3", "4", "5", "6", "7", "8", "9"].contains d
  | .decimal => true
  | .clear => true
  | _ => false

lemma entry_step_good (e : Event) (s : EngState) (he : entryEvent e = true)
    (h1 : canonicalOperand s.currentValue = true) (h2 : '-' ∉ s.currentValue.data) :
    canonicalOperand ((step e s).currentValue) = true ∧
      '-' ∉ ((step e s).currentValue).data := by
  cases e with
  | digit d =>
    simp only [entryEvent] at he
    have hd : d ∈ ["0", "1", "2", "3", "4", "5", "6", "7", "8", "9"] := by simpa using he
    obtain ⟨c, hdc, hcdig, hcanond, hdm⟩ :
        ∃ c, d.data = [c] ∧ c.isDigit = true ∧ canonicalOperand d = true ∧ '-' ∉ d.data := by
      fin_cases hd <;> exact ⟨_, rfl, by decide, by decide, by decide⟩
    simp only [step, inputNumberS]
    by_cases hw : s.isWaitingForOperand = true
    · rw [if_pos hw]
      exact ⟨hcanond, hdm⟩
    · rw [if_neg hw]
      by_cases h0 : s.currentValue = "0"
      · rw [if_pos h0]
        have hlen : ¬15 < d.length := by
          show ¬15 < d.data.length
          rw [hdc]
          simp
        rw [if_neg hlen]
        exact ⟨hcanond, hdm⟩
      · rw [if_neg h0]
        by_cases hlen : 15 < (s.currentValue ++ d).length
        · rw [if_pos hlen]
          exact ⟨h1, h2⟩
        · rw [if_neg hlen]
          have happ : (s.currentValue ++ d).data = s.currentValue.data ++ [c] := by
            rw [data_append, hdc]
          have h0l : s.currentValue.data ≠ ['0'] := by
            intro hx
            exact h0 (string_data_inj (t := "0") hx)
          have hres := canonList_append_digit s.currentValue.data c hcdig h1 h2 h0l
          refine ⟨?_, ?_⟩
          · show canonList (s.currentValue ++ d).data = true
            rw [happ]
            exact hres.1
          · rw [happ]
            exact hres.2
  | decimal =>
    simp only [step, inputDecimalS]
    by_cases hw : s.isWaitingForOperand = true
    · rw [if_pos hw]
      exact ⟨(by decide : canonicalOperand "0." = true), (by decide : '-' ∉ ("0." : String).data)⟩
    · rw [if_neg hw]
      by_cases hdot : s.currentValue.data.contains '.' = false
      · rw [if_pos hdot]
        have hnd : '.' ∉ s.currentValue.data := by simpa using hdot
        have happ : (s.currentValue ++ ".").data = s.currentValue.data ++ ['.'] := by
          rw [data_append]
        have hres := canonList_append_dot s.currentValue.data h1 h2 hnd
        refine ⟨?_, ?_⟩
        · show canonList (s.currentValue ++ ".").data = true
          rw [happ]
          exact hres.1
        · rw [happ]
          exact hres.2
      · rw [if_neg hdot]
        exact ⟨h1, h2⟩
  | clear =>
    exact ⟨(by decide : canonicalOperand "0" = true), (by decide : '-' ∉ ("0" : String).data)⟩
  | opKey op => exact absurd he (by simp [entryEvent])
  | equals => exact absurd he (by simp [entryEvent])
  | backspace => exact absurd he (by simp [entryEvent])
  | percentage => exact absurd he (by simp [entryEvent])
  | sci f => exact absurd he (by simp [entryEvent])
  | memClear => exact absurd he (by simp [entryEvent])
  | memRecall => exact absurd he (by simp [entryEvent])
  | memAdd => exact absurd he (by simp [entryEvent])
  | memSubtract => exact absurd he (by simp [entryEvent])
  | undoKey => exact absurd he (by simp [entryEvent])
  | loadHistory v => exact absurd he (by simp [entryEvent])
  | modeToggle m => exact absurd he (by simp [entryEvent])

/-- C7 amended: the canonical-form invariant holds for all states reachable
through operand-entry events alone (digits, decimal point, clear); it is the
result-writing operations (equals, percentage, scientific functions) that can
break it by storing grouped or exponential strings, as C7_counterexample
shows. -/
theorem C7_canonical_under_entry (evs : List Event)
    (h : ∀ e ∈ evs, entryEvent e = true) :
    canonicalOperand ((runEvents evs).currentValue) = true := by
  have main : ∀ (l : List Event) (s : EngState), (∀ e ∈ l, entryEvent e = true) →
      canonicalOperand s.currentValue = true → '-' ∉ s.currentValue.data →
      canonicalOperand ((l.foldl (fun t e => step e t) s).currentValue) = true ∧
        '-' ∉ ((l.foldl (fun t e => step e t) s).currentValue).data := by
    intro l
    induction l with
    | nil => intro s _ h1 h2; exact ⟨h1, h2⟩
    | cons e rest ih =>
      intro s hl h1 h2
      have hstep := entry_step_good e s (hl e (List.mem_cons_self e rest)) h1 h2
      exact ih (step e s) (fun x hx => hl x (List.mem_cons_of_mem e hx)) hstep.1 hstep.2
  exact (main evs initState h (by decide) (by decide)).1

theorem C7_witness :
    canonicalOperand ((runEvents [.digit "1", .decimal, .digit "5"]).currentValue) = true :=
  C7_canonical_under_entry [.digit "1", .decimal, .digit "5"] (by decide)
